import Mathlib

/-!
# Verification of the open-craft crafting state engine

A shallow embedding of the Go sources of tracepanic/open-craft.
Go strings are modelled as lists of characters (`Str`), Go maps as
association lists with first-match lookup (Go maps have unique keys,
so first-match lookup agrees with map indexing), and functions that
mutate their `GameState` receiver are modelled as functions returning
the updated state.  File reads are modelled by passing the read results
as parameters (`Except` for the fail-fast catalog sources, `Option` for
the tolerated per-player progress read).
-/

/-- Go strings, modelled as lists of characters. -/
abbrev Str := List Char

/-- Go `strings.TrimSpace`: drop leading and trailing whitespace. -/
def trimStr (s : Str) : Str :=
  ((s.dropWhile Char.isWhitespace).reverse.dropWhile Char.isWhitespace).reverse

/-- Go map lookup on an association list (Go maps have unique keys, so
the first match is the only match). -/
def mapLookup {β : Type} (m : List (Str × β)) (key : Str) : Option β :=
  match m with
  | [] => none
  | (k, v) :: rest => if k = key then some v else mapLookup rest key

/-- `Element` (unnamed/part_000 lines 27-30): display name and category. -/
structure Element where
  Name : Str
  Category : Str
deriving DecidableEq

/-- `GameState` (unnamed/part_000 lines 32-37): the catalog (elements,
recipes, impossible combos) together with the player's discovered list. -/
structure GameState where
  Elements : List (Str × Element)
  Recipes : List (Str × Str)
  Discovered : List Str
  Impossible : List Str
deriving DecidableEq

/-- `GameState.isDiscovered` (unnamed/part_000 lines 228-230). -/
def GameState.isDiscovered (gs : GameState) (element : Str) : Bool :=
  gs.Discovered.contains element

/-- `GameState.addDiscovered` (unnamed/part_000 lines 232-236):
append the element unless already present. -/
def GameState.addDiscovered (gs : GameState) (element : Str) : GameState :=
  if gs.isDiscovered element then gs
  else { gs with Discovered := gs.Discovered ++ [element] }

/-- `normalizeElementName` (unnamed/part_000 lines 238-242):
trim, lower-case, then replace every space by a dash. -/
def normalizeElementName (name : Str) : Str :=
  let lowered := (trimStr name).map Char.toLower
  lowered.map (fun c => if c = ' ' then '-' else c)

/-- `normalizeElementName` as written in main.go lines 192-194 (and in
unnamed/part_001 lines 148-150): trim and lower-case only, with no
space replacement. -/
def normalizeElementNameMainGo (name : Str) : Str :=
  (trimStr name).map Char.toLower

/-- The combination key `elem1 + "+" + elem2` built throughout the source. -/
def combo (elem1 elem2 : Str) : Str := elem1 ++ '+' :: elem2

/-- `GameState.combineElements` (unnamed/part_000 lines 244-259): look up
`elem1+elem2` then `elem2+elem1` in the recipe map; on a hit, add the
result to the discovered list and return it; otherwise return `""`.
The returned pair carries the updated state of the mutated receiver. -/
def GameState.combineElements (gs : GameState) (elem1 elem2 : Str) : Str × GameState :=
  let combo1 := combo elem1 elem2
  let combo2 := combo elem2 elem1
  match mapLookup gs.Recipes combo1 with
  | some result => (result, gs.addDiscovered result)
  | none =>
    match mapLookup gs.Recipes combo2 with
    | some result => (result, gs.addDiscovered result)
    | none => ([], gs)

/-- Go `strings.Split (s, "+")`: split around every occurrence of the
separator character. -/
def splitPlus : Str → List Str
  | [] => [[]]
  | c :: rest =>
    if c = '+' then [] :: splitPlus rest
    else
      match splitPlus rest with
      | [] => [[c]]
      | part :: parts => (c :: part) :: parts

/-- `GameState.isImpossible` (unnamed/part_000 lines 261-267): split the
combo on `+`, rebuild the reversed combo from parts 1 and 0, and test
membership of either in the impossible list.  (The Go code indexes
parts 0 and 1 directly; callers always pass a combo containing the
separator, for which both parts exist.) -/
def GameState.isImpossible (gs : GameState) (c : Str) : Bool :=
  let elements := splitPlus c
  let reversed := elements.getD 1 [] ++ '+' :: elements.getD 0 []
  gs.Impossible.contains c || gs.Impossible.contains reversed

/-- Display name of an element identifier: Go `gs.Elements[id].Name`,
where a missing key yields the zero value. -/
def displayName (gs : GameState) (id : Str) : Str :=
  ((mapLookup gs.Elements id).getD { Name := [], Category := [] }).Name

/-- Lexicographically sorted element identifiers, Go
`sort.Strings(allElements)` on the keys of the element map. -/
def sortStrs (l : List Str) : List Str :=
  List.insertionSort (fun a b => a ≤ b) l

/-- The index pairs `i <= j` of the Go nested loop in `getUntriedCombos`
(unnamed/part_000 lines 278-298), as the ordered list of value pairs. -/
def pairsFrom : List Str → List (Str × Str)
  | [] => []
  | e :: rest => (e :: rest).map (fun e2 => (e, e2)) ++ pairsFrom rest

/-- `GameState.getUntriedCombos` (unnamed/part_000 lines 269-302): over
the sorted element identifiers, for every pair `i <= j`, skip pairs with
a recipe in either direction or an impossibility entry, and render the
remaining pairs with display names. -/
def GameState.getUntriedCombos (gs : GameState) : List Str :=
  let allElements := sortStrs (gs.Elements.map Prod.fst)
  (pairsFrom allElements).filterMap (fun p =>
    let combo1 := combo p.1 p.2
    let combo2 := combo p.2 p.1
    if (mapLookup gs.Recipes combo1).isSome then none
    else if (mapLookup gs.Recipes combo2).isSome then none
    else if gs.isImpossible combo1 then none
    else some (displayName gs p.1 ++ " + ".toList ++ displayName gs p.2))

/-- The combine branch of the terminal loop in `main`
(unnamed/part_000 lines 738-752): normalize both raw inputs, reject if
either is undiscovered (lines 741-745, state untouched), otherwise call
`combineElements`; a `""` result is reported as "cannot combine".
`none` models both player-facing rejections (never an error). -/
def cliCombine (gs : GameState) (input1 input2 : Str) : Option Str × GameState :=
  let elem1 := normalizeElementName input1
  let elem2 := normalizeElementName input2
  if !gs.isDiscovered elem1 || !gs.isDiscovered elem2 then (none, gs)
  else
    let r := gs.combineElements elem1 elem2
    if r.1 = [] then (none, r.2) else (some r.1, r.2)

/-- `CombineResponse` (unnamed/part_000 lines 56-60). -/
structure CombineResponse where
  Success : Bool
  Result : Str
  Error : Str
deriving DecidableEq

/-- `handleCombineAPI` (unnamed/part_000 lines 355-385): normalize the
two query parameters and answer from the recipe map alone; on a hit in
either direction report success with the result's display name,
otherwise report failure.  The game state is only read. -/
def handleCombineAPI (gs : GameState) (q1 q2 : Str) : CombineResponse :=
  let elem1 := normalizeElementName q1
  let elem2 := normalizeElementName q2
  let combo1 := combo elem1 elem2
  let combo2 := combo elem2 elem1
  match mapLookup gs.Recipes combo1 with
  | some result => { Success := true, Result := displayName gs result, Error := [] }
  | none =>
    match mapLookup gs.Recipes combo2 with
    | some result => { Success := true, Result := displayName gs result, Error := [] }
    | none =>
      { Success := false, Result := [],
        Error := "These elements cannot be combined".toList }

/-- The four bootstrap elements (unnamed/part_000 line 193). -/
def bootstrapElements : List Str :=
  ["water".toList, "fire".toList, "earth".toList, "wind".toList]

/-- The seeding step shared by `loadGameState` (unnamed/part_000 lines
192-195) and `getUserGameState` (lines 346-349): if the loaded
discovered list is empty, replace it by the four bootstrap elements. -/
def seedDiscovered (loaded : List Str) : List Str :=
  if loaded.length = 0 then bootstrapElements else loaded

/-- `loadGameState` (unnamed/part_000 lines 136-198), with the file
reads passed in as parameters: each of the three catalog sources either
yields parsed data or an error (`Except`), and the per-player progress
read yields the parsed discovered list or nothing (`Option`, covering a
missing, unreadable or unparseable progress file, whose read error the
source ignores).  A catalog error aborts with no state; the discovered
list is then seeded if empty. -/
def loadGameState (elementsSrc : Except String (List (Str × Element)))
    (recipesSrc : Except String (List (Str × Str)))
    (impossibleSrc : Except String (List Str))
    (progress : Option (List Str)) : Except String GameState :=
  match elementsSrc with
  | .error _ => .error "failed to load elements"
  | .ok elements =>
    match recipesSrc with
    | .error _ => .error "failed to load recipes"
    | .ok recipes =>
      match impossibleSrc with
      | .error _ => .error "failed to load impossible"
      | .ok impossible =>
        .ok { Elements := elements, Recipes := recipes,
              Discovered := seedDiscovered (progress.getD []),
              Impossible := impossible }

/-- Modelled from the spec's words for the canonical identifier form
("trim whitespace, lower-case, map internal separator consistently"):
a single pass over the trimmed input that lower-cases each character
and turns spaces into the separator.  Refinement target for the
normalization claim. -/
def canonicalIdentifierSpec (name : Str) : Str :=
  (trimStr name).map (fun c =>
    let l := c.toLower
    if l = ' ' then '-' else l)

/-- Modelled from the spec's words for the untried-combination
enumerator: over the sorted identifiers, for every pair `i <= j`, skip
the pair when a recipe exists under either ordering or when either
ordering appears in the impossibility set, and emit the remaining pairs
rendered with display names.  Refinement target for the enumerator
claim. -/
def untriedCombosSpec (gs : GameState) : List Str :=
  (pairsFrom (sortStrs (gs.Elements.map Prod.fst))).filterMap (fun p =>
    let combo1 := combo p.1 p.2
    let combo2 := combo p.2 p.1
    if (mapLookup gs.Recipes combo1).isSome || (mapLookup gs.Recipes combo2).isSome then
      none
    else if gs.Impossible.contains combo1 || gs.Impossible.contains combo2 then
      none
    else some (displayName gs p.1 ++ " + ".toList ++ displayName gs p.2))

/-- A small concrete state used to exercise the theorems: the scenario
catalog `{water, fire, steam}` with the recipe `water+fire = steam`,
with water and fire discovered. -/
def waterFireState : GameState :=
  { Elements := [("water".toList, { Name := "Water".toList, Category := "Primordial".toList }),
                 ("fire".toList, { Name := "Fire".toList, Category := "Primordial".toList }),
                 ("steam".toList, { Name := "Steam".toList, Category := "Natural".toList })],
    Recipes := [("water+fire".toList, "steam".toList)],
    Discovered := ["water".toList, "fire".toList],
    Impossible := [] }

/-- A state whose recipe map stores both orderings of the same pair
with different results (legal as a Go map, since the keys differ). -/
def dupRecipeState : GameState :=
  { Elements := [],
    Recipes := [("x+y".toList, "r1".toList), ("y+x".toList, "r2".toList)],
    Discovered := ["x".toList, "y".toList],
    Impossible := [] }

/-- The enumerator example catalog `{a, b, c}` (displayed A, B, C) with
the recipe `a+b = d` and the impossibility entry `a+c`. -/
def abcCatalogState : GameState :=
  { Elements := [("a".toList, { Name := "A".toList, Category := [] }),
                 ("b".toList, { Name := "B".toList, Category := [] }),
                 ("c".toList, { Name := "C".toList, Category := [] })],
    Recipes := [("a+b".toList, "d".toList)],
    Discovered := [],
    Impossible := ["a+c".toList] }

/-- A catalog with an element identifier that itself contains the pair
separator: for the pair (a+b, c) the reversed combo reconstructed by
`isImpossible` from the split segments is "b+a", not "c+a+b". -/
def plusIdCatalogState : GameState :=
  { Elements := [("a+b".toList, { Name := "AB".toList, Category := [] }),
                 ("c".toList, { Name := "C".toList, Category := [] })],
    Recipes := [],
    Discovered := [],
    Impossible := ["c+a+b".toList] }

/-! ## Helper lemmas -/

theorem strContains_iff {l : List Str} {a : Str} : l.contains a = true ↔ a ∈ l := by
  simp

theorem addDiscovered_Recipes (gs : GameState) (e : Str) :
    (gs.addDiscovered e).Recipes = gs.Recipes := by
  unfold GameState.addDiscovered
  split <;> rfl

theorem mem_addDiscovered (gs : GameState) (e : Str) :
    e ∈ (gs.addDiscovered e).Discovered := by
  unfold GameState.addDiscovered
  split
  · next h => exact strContains_iff.mp h
  · simp

theorem addDiscovered_of_discovered (gs : GameState) (e : Str)
    (h : gs.isDiscovered e = true) : gs.addDiscovered e = gs := by
  unfold GameState.addDiscovered
  simp [h]

theorem addDiscovered_idem (gs : GameState) (e : Str) :
    (gs.addDiscovered e).addDiscovered e = gs.addDiscovered e :=
  addDiscovered_of_discovered _ _ (strContains_iff.mpr (mem_addDiscovered gs e))

theorem splitPlus_of_no_plus {l : Str} (h : '+' ∉ l) : splitPlus l = [l] := by
  induction l with
  | nil => rfl
  | cons c rest ih =>
    simp only [List.mem_cons, not_or] at h
    unfold splitPlus
    rw [if_neg (fun hc => h.1 hc.symm), ih h.2]

theorem splitPlus_combo {e1 e2 : Str} (h1 : '+' ∉ e1) (h2 : '+' ∉ e2) :
    splitPlus (combo e1 e2) = [e1, e2] := by
  induction e1 with
  | nil =>
    show splitPlus ('+' :: e2) = [[], e2]
    unfold splitPlus
    rw [if_pos rfl, splitPlus_of_no_plus h2]
  | cons c rest ih =>
    simp only [List.mem_cons, not_or] at h1
    show splitPlus (c :: combo rest e2) = [c :: rest, e2]
    unfold splitPlus
    rw [if_neg (fun hc => h1.1 hc.symm), ih h1.2]

theorem isImpossible_combo (gs : GameState) {e1 e2 : Str}
    (h1 : '+' ∉ e1) (h2 : '+' ∉ e2) :
    gs.isImpossible (combo e1 e2) =
      (gs.Impossible.contains (combo e1 e2) || gs.Impossible.contains (combo e2 e1)) := by
  unfold GameState.isImpossible
  rw [splitPlus_combo h1 h2]
  rfl

theorem pairsFrom_mem {l : List Str} {p : Str × Str} (hp : p ∈ pairsFrom l) :
    p.1 ∈ l ∧ p.2 ∈ l := by
  induction l with
  | nil => cases hp
  | cons e rest ih =>
    unfold pairsFrom at hp
    rw [List.mem_append, List.mem_map] at hp
    rcases hp with ⟨e2, he2, hpe⟩ | hp
    · rw [← hpe]
      exact ⟨List.mem_cons_self e rest, he2⟩
    · exact ⟨List.mem_cons_of_mem e (ih hp).1, List.mem_cons_of_mem e (ih hp).2⟩

theorem mem_sortStrs {l : List Str} {x : Str} : x ∈ sortStrs l ↔ x ∈ l :=
  List.mem_insertionSort _

/-! ## Claim theorems -/

/-- C1: for discovered elements a and b with a stored recipe under
`a+b` (or, failing that, `b+a`), `combineElements a b` returns that
recipe's result and the result is in the discovered set afterwards. -/
theorem combineElements_returns_recipe_and_discovers (gs : GameState) (a b r : Str)
    (ha : a ∈ gs.Discovered) (hb : b ∈ gs.Discovered)
    (hr : mapLookup gs.Recipes (combo a b) = some r ∨
      (mapLookup gs.Recipes (combo a b) = none ∧ mapLookup gs.Recipes (combo b a) = some r)) :
    (gs.combineElements a b).1 = r ∧ r ∈ (gs.combineElements a b).2.Discovered := by
  simp only [GameState.combineElements]
  rcases hr with hr | ⟨hn, hr⟩
  · rw [hr]
    exact ⟨rfl, mem_addDiscovered gs r⟩
  · rw [hn, hr]
    exact ⟨rfl, mem_addDiscovered gs r⟩

/-- C2: the terminal combine flow rejects (returning no result, never
an error) when either normalized operand is undiscovered, and the game
state is unchanged. -/
theorem cliCombine_rejects_undiscovered (gs : GameState) (raw1 raw2 : Str)
    (h : gs.isDiscovered (normalizeElementName raw1) = false ∨
      gs.isDiscovered (normalizeElementName raw2) = false) :
    cliCombine gs raw1 raw2 = (none, gs) := by
  simp only [cliCombine]
  rcases h with h | h <;> simp [h]

/-- C5: calling `combineElements` twice in a row with the same operands
returns the same result both times, and the discovered list after the
second call equals the discovered list after the first. -/
theorem combineElements_idempotent (gs : GameState) (a b : Str) :
    ((gs.combineElements a b).2.combineElements a b).1 = (gs.combineElements a b).1 ∧
    ((gs.combineElements a b).2.combineElements a b).2.Discovered =
      (gs.combineElements a b).2.Discovered := by
  cases h1 : mapLookup gs.Recipes (combo a b) with
  | some r =>
    simp [GameState.combineElements, h1, addDiscovered_Recipes, addDiscovered_idem]
  | none =>
    cases h2 : mapLookup gs.Recipes (combo b a) with
    | some r =>
      simp [GameState.combineElements, h1, h2, addDiscovered_Recipes, addDiscovered_idem]
    | none =>
      simp [GameState.combineElements, h1, h2]

/-- C10: `addDiscovered` (and hence the state update of
`combineElements`) preserves distinctness of the discovered list and
grows it by at most one element per call. -/
theorem discovered_nodup_preserved (gs : GameState) (e a b : Str)
    (h : gs.Discovered.Nodup) :
    ((gs.addDiscovered e).Discovered.Nodup ∧
      (gs.addDiscovered e).Discovered.length ≤ gs.Discovered.length + 1) ∧
    ((gs.combineElements a b).2.Discovered.Nodup ∧
      (gs.combineElements a b).2.Discovered.length ≤ gs.Discovered.length + 1) := by
  have haux : ∀ x : Str, (gs.addDiscovered x).Discovered.Nodup ∧
      (gs.addDiscovered x).Discovered.length ≤ gs.Discovered.length + 1 := by
    intro x
    unfold GameState.addDiscovered
    split
    · exact ⟨h, Nat.le_succ _⟩
    · next hx =>
      constructor
      · rw [List.nodup_append]
        refine ⟨h, List.nodup_singleton x, ?_⟩
        intro y hy hx1
        rw [List.mem_singleton] at hx1
        subst hx1
        exact absurd (strContains_iff.mpr hy) (by simp [GameState.isDiscovered] at hx ⊢; exact hx)
      · simp
  refine ⟨haux e, ?_⟩
  simp only [GameState.combineElements]
  cases h1 : mapLookup gs.Recipes (combo a b) with
  | some r => exact haux r
  | none =>
    cases h2 : mapLookup gs.Recipes (combo b a) with
    | some r => exact haux r
    | none => exact ⟨h, Nat.le_succ _⟩

/-- Witness for C1 at the water+fire=steam scenario. -/
theorem combineElements_returns_recipe_and_discovers_witness :
    "water".toList ∈ waterFireState.Discovered ∧
    "fire".toList ∈ waterFireState.Discovered ∧
    ((waterFireState.combineElements "water".toList "fire".toList).1 = "steam".toList ∧
      "steam".toList ∈ (waterFireState.combineElements "water".toList "fire".toList).2.Discovered) :=
  ⟨by decide, by decide,
    combineElements_returns_recipe_and_discovers waterFireState
      "water".toList "fire".toList "steam".toList
      (by decide) (by decide) (Or.inl (by decide))⟩

/-- Witness for C2: combining the undiscovered steam with fire is
rejected and leaves the state untouched. -/
theorem cliCombine_rejects_undiscovered_witness :
    waterFireState.isDiscovered (normalizeElementName "steam".toList) = false ∧
    cliCombine waterFireState "steam".toList "fire".toList = (none, waterFireState) :=
  ⟨by decide,
    cliCombine_rejects_undiscovered waterFireState "steam".toList "fire".toList
      (Or.inl (by decide))⟩

/-- C4 counterexample: with both orderings of one pair stored with
different results, `combineElements x y` and `combineElements y x`
return different results (and discover different elements), so symmetry
fails for that ledger state. -/
theorem combineElements_not_symmetric :
    ¬(((dupRecipeState.combineElements "x".toList "y".toList).1 =
        (dupRecipeState.combineElements "y".toList "x".toList).1) ∧
      ((dupRecipeState.combineElements "x".toList "y".toList).2.Discovered =
        (dupRecipeState.combineElements "y".toList "x".toList).2.Discovered)) := by
  decide

/-- C4 (amended): `combineElements` is symmetric on every state whose
recipe table is directionally consistent, i.e. whenever both orderings
of the pair are stored they map to the same result (the repository's
data validation test enforces that only one ordering is stored). -/
theorem combineElements_symmetric (gs : GameState) (a b : Str)
    (h : ∀ r1 r2, mapLookup gs.Recipes (combo a b) = some r1 →
      mapLookup gs.Recipes (combo b a) = some r2 → r1 = r2) :
    gs.combineElements a b = gs.combineElements b a := by
  simp only [GameState.combineElements]
  cases h1 : mapLookup gs.Recipes (combo a b) with
  | some r1 =>
    cases h2 : mapLookup gs.Recipes (combo b a) with
    | some r2 => rw [h r1 r2 h1 h2]
    | none => rfl
  | none =>
    cases h2 : mapLookup gs.Recipes (combo b a) with
    | some r2 => rfl
    | none => rfl

/-- Witness for the amended C4 at the water+fire=steam scenario (only
one ordering stored). -/
theorem combineElements_symmetric_witness :
    waterFireState.combineElements "water".toList "fire".toList =
      waterFireState.combineElements "fire".toList "water".toList :=
  combineElements_symmetric waterFireState "water".toList "fire".toList
    (fun r1 r2 h1 h2 => by
      have hnone : mapLookup waterFireState.Recipes
          (combo "fire".toList "water".toList) = none := by decide
      rw [hnone] at h2
      cases h2)

/-- C9 counterexample: the normalization rule is not uniform across the
source's variants: on the input "a b" the part_000 routine returns
"a-b" while the main.go routine returns "a b" (no space replacement). -/
theorem normalizeElementName_not_uniform :
    normalizeElementName "a b".toList = "a-b".toList ∧
    normalizeElementNameMainGo "a b".toList = "a b".toList ∧
    ¬normalizeElementNameMainGo "a b".toList = normalizeElementName "a b".toList := by
  decide

/-- C9 (amended): the part_000 `normalizeElementName` computes the
canonical identifier form (trim, lower-case, spaces to dashes, in one
pass over the characters) and leaves no space in its output; the
variant in main.go and part_001 performs only trimming and
lower-casing. -/
theorem normalizeElementName_canonical (s : Str) :
    normalizeElementName s = canonicalIdentifierSpec s ∧
    ' ' ∉ normalizeElementName s ∧
    normalizeElementNameMainGo s = (trimStr s).map Char.toLower := by
  refine ⟨?_, ?_, rfl⟩
  · simp only [normalizeElementName, canonicalIdentifierSpec, List.map_map]
    rfl
  · intro hmem
    simp only [normalizeElementName, List.mem_map] at hmem
    obtain ⟨c, hc, hceq⟩ := hmem
    by_cases h : c = ' '
    · rw [if_pos h] at hceq
      exact absurd hceq (by decide)
    · rw [if_neg h] at hceq
      exact h hceq

/-- C6 counterexample: a persisted discovered list `["rock"]` is
nonempty, so seeding is skipped and the bootstrap elements are not a
subset of the resulting discovered set. -/
theorem bootstrap_not_always_subset :
    (loadGameState (.ok []) (.ok []) (.ok []) (some ["rock".toList])).map
        GameState.Discovered = .ok ["rock".toList] ∧
    "water".toList ∉ (["rock".toList] : List Str) :=
  ⟨rfl, by decide⟩

/-- C6 (amended): after initialization the discovered set is the loaded
list seeded when empty; an empty loaded list yields exactly the four
bootstrap elements, and the bootstrap set is a subset of the result
whenever the loaded list is empty or itself contains the bootstrap
elements. -/
theorem bootstrap_seeding (el : List (Str × Element)) (re : List (Str × Str))
    (im : List Str) (loaded : List Str)
    (h : loaded = [] ∨ ∀ e ∈ bootstrapElements, e ∈ loaded) :
    (loadGameState (.ok el) (.ok re) (.ok im) (some loaded)).map GameState.Discovered =
      .ok (seedDiscovered loaded) ∧
    (∀ e ∈ bootstrapElements, e ∈ seedDiscovered loaded) ∧
    (loaded = [] → seedDiscovered loaded = bootstrapElements) := by
  refine ⟨rfl, ?_, ?_⟩
  · unfold seedDiscovered
    split
    · intro e he
      exact he
    · next hlen =>
      rcases h with h | h
      · subst h
        simp at hlen
      · exact h
  · intro hl
    subst hl
    rfl

/-- Witness for the amended C6 at the new-player state (empty load). -/
theorem bootstrap_seeding_witness :
    (([] : List Str) = [] ∨ ∀ e ∈ bootstrapElements, e ∈ ([] : List Str)) ∧
    ((loadGameState (.ok []) (.ok []) (.ok []) (some [])).map GameState.Discovered =
      .ok (seedDiscovered []) ∧
    (∀ e ∈ bootstrapElements, e ∈ seedDiscovered []) ∧
    (([] : List Str) = [] → seedDiscovered [] = bootstrapElements)) :=
  ⟨Or.inl rfl, bootstrap_seeding [] [] [] [] (Or.inl rfl)⟩

/-- C7: with the three catalog sources loaded, `loadGameState` succeeds
for every progress-read outcome; a missing/unreadable progress store
(`none`) yields the seeded new-player state; an error in any catalog
source aborts with an error and no partial state. -/
theorem loadGameState_error_handling (el : List (Str × Element)) (re : List (Str × Str))
    (im : List Str) (progress : Option (List Str)) (err : String)
    (anyRe : Except String (List (Str × Str))) (anyIm : Except String (List Str)) :
    (loadGameState (.ok el) (.ok re) (.ok im) progress).isOk = true ∧
    (loadGameState (.ok el) (.ok re) (.ok im) none).map GameState.Discovered =
      .ok bootstrapElements ∧
    (loadGameState (.error err) anyRe anyIm progress).isOk = false ∧
    (loadGameState (.ok el) (.error err) anyIm progress).isOk = false ∧
    (loadGameState (.ok el) (.ok re) (.error err) progress).isOk = false :=
  ⟨rfl, rfl, rfl, rfl, rfl⟩

/-- C3 counterexample: with the identifier "a+b" in the catalog and the
impossibility entry "c+a+b", the pair (a+b, c) has its reversed key
"c+a+b" in the impossibility set, so the claim excludes it, yet the
enumerator still emits "AB + C": `isImpossible` rebuilds the reverse
from the first two split segments ("b+a") and misses the entry. -/
theorem getUntriedCombos_not_spec_for_plus_ids :
    plusIdCatalogState.getUntriedCombos =
      ["AB + AB".toList, "AB + C".toList, "C + C".toList] ∧
    plusIdCatalogState.Impossible.contains
      (combo "c".toList "a+b".toList) = true ∧
    untriedCombosSpec plusIdCatalogState =
      ["AB + AB".toList, "C + C".toList] := by
  decide

/-- C3 (amended): when no element identifier contains the separator character,
the enumerator equals its specification: over the sorted identifiers,
every pair `i <= j` without a recipe in either direction and without an
impossibility entry in either direction, rendered with display names. -/
theorem getUntriedCombos_eq_spec (gs : GameState)
    (h : ∀ id ∈ gs.Elements.map Prod.fst, '+' ∉ id) :
    gs.getUntriedCombos = untriedCombosSpec gs := by
  simp only [GameState.getUntriedCombos, untriedCombosSpec]
  apply List.filterMap_congr
  intro p hp
  have hmem := pairsFrom_mem hp
  have h1 : '+' ∉ p.1 := h p.1 (mem_sortStrs.mp hmem.1)
  have h2 : '+' ∉ p.2 := h p.2 (mem_sortStrs.mp hmem.2)
  rw [isImpossible_combo gs h1 h2]
  cases hr1 : (mapLookup gs.Recipes (combo p.1 p.2)).isSome <;>
    cases hr2 : (mapLookup gs.Recipes (combo p.2 p.1)).isSome <;>
    cases hi1 : gs.Impossible.contains (combo p.1 p.2) <;>
    cases hi2 : gs.Impossible.contains (combo p.2 p.1) <;>
    simp [hr1, hr2, hi1, hi2]

/-- Witness for C3 at the `{a, b, c}` catalog: the enumerator matches
the specification and returns exactly A+A, B+B, B+C, C+C, excluding the
recipe pair a+b and the impossible pair a+c. -/
theorem getUntriedCombos_eq_spec_witness :
    (∀ id ∈ abcCatalogState.Elements.map Prod.fst, '+' ∉ id) ∧
    abcCatalogState.getUntriedCombos = untriedCombosSpec abcCatalogState ∧
    abcCatalogState.getUntriedCombos =
      ["A + A".toList, "B + B".toList, "B + C".toList, "C + C".toList] :=
  ⟨by decide, getUntriedCombos_eq_spec abcCatalogState (by decide), by decide⟩

/-- C8: the API combine handler answers from the recipe table alone:
success holds exactly when a recipe exists under either ordering of the
normalized identifiers, the reported result is the display name of the
first matching recipe's result, and the response is independent of the
discovered set (which the handler never touches: it returns only a
response and no state). -/
theorem handleCombineAPI_stateless (gs : GameState) (q1 q2 : Str) :
    ((handleCombineAPI gs q1 q2).Success = true ↔
      ((mapLookup gs.Recipes (combo (normalizeElementName q1) (normalizeElementName q2))).isSome ∨
       (mapLookup gs.Recipes (combo (normalizeElementName q2) (normalizeElementName q1))).isSome)) ∧
    (∀ r, mapLookup gs.Recipes (combo (normalizeElementName q1) (normalizeElementName q2)) = some r →
      (handleCombineAPI gs q1 q2).Result = displayName gs r) ∧
    (∀ r, mapLookup gs.Recipes (combo (normalizeElementName q1) (normalizeElementName q2)) = none →
      mapLookup gs.Recipes (combo (normalizeElementName q2) (normalizeElementName q1)) = some r →
      (handleCombineAPI gs q1 q2).Result = displayName gs r) ∧
    (∀ d, handleCombineAPI { gs with Discovered := d } q1 q2 = handleCombineAPI gs q1 q2) := by
  refine ⟨?_, ?_, ?_, fun d => rfl⟩
  · cases hr1 : mapLookup gs.Recipes (combo (normalizeElementName q1) (normalizeElementName q2)) with
    | some r1 => simp [handleCombineAPI, hr1]
    | none =>
      cases hr2 : mapLookup gs.Recipes (combo (normalizeElementName q2) (normalizeElementName q1)) with
      | some r2 => simp [handleCombineAPI, hr1, hr2]
      | none => simp [handleCombineAPI, hr1, hr2]
  · intro r hr
    simp [handleCombineAPI, hr]
  · intro r hn hr
    simp [handleCombineAPI, hn, hr]

/-- Witness for C8: the handler reports steam for the mixed-case query
Water/FIRE even though steam is undiscovered. -/
theorem handleCombineAPI_stateless_witness :
    (handleCombineAPI waterFireState " Water ".toList "FIRE".toList).Success = true ∧
    (handleCombineAPI waterFireState " Water ".toList "FIRE".toList).Result = "Steam".toList :=
  ⟨(handleCombineAPI_stateless waterFireState " Water ".toList "FIRE".toList).1.mpr
      (Or.inl (by decide)),
    ((handleCombineAPI_stateless waterFireState " Water ".toList "FIRE".toList).2.1
      "steam".toList (by decide)).trans (by decide)⟩

/-- Witness for C10 at the water+fire scenario: the discovered list is
duplicate-free, stays so after adding steam and after combining, and
grows by at most one. -/
theorem discovered_nodup_preserved_witness :
    waterFireState.Discovered.Nodup ∧
    (((waterFireState.addDiscovered "steam".toList).Discovered.Nodup ∧
      (waterFireState.addDiscovered "steam".toList).Discovered.length ≤
        waterFireState.Discovered.length + 1) ∧
    ((waterFireState.combineElements "water".toList "fire".toList).2.Discovered.Nodup ∧
      (waterFireState.combineElements "water".toList "fire".toList).2.Discovered.length ≤
        waterFireState.Discovered.length + 1)) :=
  ⟨by decide,
    discovered_nodup_preserved waterFireState "steam".toList
      "water".toList "fire".toList (by decide)⟩
